import Mathlib

/-!
Shallow embedding of the sharded-update planner
(go/vt/vtgate/planbuilder/update.go) and the keyspace-id resolver
(go/vt/worker/key_resolver.go).

Column identifiers are represented as already-lowered strings, so the
case-insensitive ColIdent comparison of the source becomes plain string
equality.  External collaborators that are not part of the two source
files (sqlparser.NewPlanValue, vindexes.FindVindexForSharding,
sqltypes.ToUint64, the vindex Map capability, the symbol-table and
routing helpers of the plan builder, the debugTable predicate) are
either modelled from the spec or passed in as explicit parameters.
-/

/-- SqlExpr models the right-hand side of a single SET assignment.  The
source distinguishes SQLVal nodes of kind StrVal, HexVal, IntVal and
ValArg (a bind-variable placeholder); every other expression (arithmetic,
function call, column reference, subquery) is a complex expression. -/
inductive SqlExpr where
  | strVal (s : String)
  | hexVal (s : String)
  | intVal (n : Int)
  | valArg (name : String)
  | complex
  deriving DecidableEq, Repr

/-- isValue mirrors sqlparser.IsValue: true exactly for StrVal, HexVal,
IntVal and ValArg nodes. -/
def isValue : SqlExpr → Bool
  | .strVal _ => true
  | .hexVal _ => true
  | .intVal _ => true
  | .valArg _ => true
  | .complex => false

/-- Modelled from the spec: sqltypes.PlanValue (the source of
sqlparser.NewPlanValue is not under src).  A PlanValue is either a
literal already known at plan time or a bind-variable placeholder
resolved at execution time. -/
inductive PlanValue where
  | value (e : SqlExpr)
  | key (name : String)
  deriving DecidableEq, Repr

/-- PlanError enumerates the error returns of the planner, one
constructor per distinct error message of the source. -/
inductive PlanError where
  | multiTableUpdate
  | targetDestination
  | shardedSubqueryDML
  | subqueryInShardedDML
  | nilVindexTable
  | routingError (msg : String)
  | duplicateSetValues (col : String)
  | notAllColumns (vindexName : String)
  | limitWithoutOrderBy (vindexName : String)
  | primaryVindexUpdate (vindexName : String)
  | notLookupVindex (vindexName : String)
  | notOwnedVindex (vindexName : String)
  | onlyValuesSupported (col : String)
  | tooComplex
  deriving DecidableEq, Repr

/-- Modelled from the spec: sqlparser.NewPlanValue (not under src) turns
a value node into a PlanValue: literals become plan-time literals and a
ValArg becomes a placeholder; anything else is too complex. -/
def newPlanValue : SqlExpr → Except PlanError PlanValue
  | .strVal s => .ok (.value (.strVal s))
  | .hexVal s => .ok (.value (.hexVal s))
  | .intVal n => .ok (.value (.intVal n))
  | .valArg n => .ok (.key n)
  | .complex => .error .tooComplex

/-- UpdateExpr is one SET assignment: a target column name and the
assigned expression. -/
structure UpdateExpr where
  name : String
  expr : SqlExpr
  deriving DecidableEq, Repr

/-- extractValueFromUpdate mirrors the source function: reject any
expression that is not a value with the only-values error, otherwise
defer to NewPlanValue. -/
def extractValueFromUpdate (u : UpdateExpr) : Except PlanError PlanValue :=
  if isValue u.expr then newPlanValue u.expr
  else .error (.onlyValuesSupported u.name)

/-- ColumnVindex models vindexes.ColumnVindex restricted to what the
planner consults: name, covered columns, ownership, and whether the
underlying vindex implements the Lookup interface. -/
structure ColumnVindex where
  name : String
  columns : List String
  owned : Bool
  isLookup : Bool
  deriving DecidableEq, Repr

/-- VTable models vindexes.Table: the ordered column-vindex list (entry
0 is the primary vindex) and the Owned sublist maintained by the
vschema builder. -/
structure VTable where
  name : String
  columnVindexes : List ColumnVindex
  owned : List ColumnVindex
  deriving DecidableEq, Repr

/-- UpdateStmt models the parsed UPDATE statement as the planner reads
it: the SET assignments, and the renderings of the WHERE clause (empty
or starting with a space), the ORDER BY items and the LIMIT clause. -/
structure UpdateStmt where
  exprs : List UpdateExpr
  whereStr : String
  orderBy : List String
  limit : Option String
  deriving DecidableEq, Repr

/-- commaPrefixed renders a list of columns, each preceded by a comma
and a space, mirroring the buffer writes of the source loop. -/
def commaPrefixed : List String → String
  | [] => ""
  | c :: cs => ", " ++ c ++ commaPrefixed cs

/-- commaSeparated renders a comma-separated column list with no
leading separator before the first column. -/
def commaSeparated : List String → String
  | [] => ""
  | c :: cs => c ++ commaPrefixed cs

/-- restColumnsText renders the columns of every vindex after the first
one; every such column gets a comma prefix because its vindex index is
not zero. -/
def restColumnsText : List (List String) → String
  | [] => ""
  | cols :: rest => commaPrefixed cols ++ restColumnsText rest

/-- ownedColumnsText mirrors the nested loop of generateUpdateSubquery:
only the column at vindex index 0 and column index 0 is written without
a comma prefix. -/
def ownedColumnsText : List (List String) → String
  | [] => ""
  | cols :: rest => commaSeparated cols ++ restColumnsText rest

/-- renderOrderBy mirrors the formatting of a sqlparser.OrderBy: the
empty list renders as the empty string. -/
def renderOrderBy : List String → String
  | [] => ""
  | x :: xs => " order by " ++ x ++ commaPrefixed xs

/-- renderLimit mirrors the formatting of a sqlparser.Limit pointer: nil
renders as the empty string. -/
def renderLimit : Option String → String
  | none => ""
  | some s => " limit " ++ s

/-- generateUpdateSubquery mirrors the source: select every column of
every owned vindex, then the table name and the original WHERE, ORDER
BY and LIMIT clauses, ending in a FOR UPDATE row lock. -/
def generateUpdateSubquery (upd : UpdateStmt) (t : VTable) : String :=
  "select " ++ ownedColumnsText (t.owned.map (fun cv => cv.columns))
    ++ " from " ++ t.name ++ upd.whereStr ++ renderOrderBy upd.orderBy
    ++ renderLimit upd.limit ++ " for update"

/-- scanAssignments mirrors the inner assignment scan of
buildChangedVindexesValues for one vindex column: a second matching
assignment is a duplicate-set-values error (checked before extracting
its value), a first match has its value extracted. -/
def scanAssignments (vcol : String) : List UpdateExpr → Option PlanValue →
    Except PlanError (Option PlanValue)
  | [], acc => .ok acc
  | a :: rest, acc =>
    if a.name == vcol then
      match acc with
      | some _ => .error (.duplicateSetValues a.name)
      | none =>
        match extractValueFromUpdate a with
        | .error e => .error e
        | .ok pv => scanAssignments vcol rest (some pv)
    else scanAssignments vcol rest acc

/-- vindexValuesFor collects, in column order of the vindex, the plan
value of each column that the SET list assigns. -/
def vindexValuesFor (exprs : List UpdateExpr) : List String →
    Except PlanError (List PlanValue)
  | [] => .ok []
  | c :: rest =>
    match scanAssignments c exprs none with
    | .error e => .error e
    | .ok found =>
      match vindexValuesFor exprs rest with
      | .error e => .error e
      | .ok tail =>
        match found with
        | some pv => .ok (pv :: tail)
        | none => .ok tail

/-- bcvvAux mirrors the vindex loop of buildChangedVindexesValues; the
first argument after the statement is the running vindex index. -/
def bcvvAux (upd : UpdateStmt) : Nat → List ColumnVindex →
    List (String × List PlanValue) →
    Except PlanError (List (String × List PlanValue))
  | _, [], acc => .ok acc
  | i, v :: rest, acc =>
    match vindexValuesFor upd.exprs v.columns with
    | .error e => .error e
    | .ok vals =>
      if vals.isEmpty then bcvvAux upd (i + 1) rest acc
      else if vals.length != v.columns.length then .error (.notAllColumns v.name)
      else if upd.limit.isSome && upd.orderBy.isEmpty then
        .error (.limitWithoutOrderBy v.name)
      else if i == 0 then .error (.primaryVindexUpdate v.name)
      else if !v.isLookup then .error (.notLookupVindex v.name)
      else if !v.owned then .error (.notOwnedVindex v.name)
      else bcvvAux upd (i + 1) rest (acc ++ [(v.name, vals)])

/-- buildChangedVindexesValues walks the column vindexes of the table in
declaration order, starting at index 0 (the primary vindex). -/
def buildChangedVindexesValues (upd : UpdateStmt) (cvs : List ColumnVindex) :
    Except PlanError (List (String × List PlanValue)) :=
  bcvvAux upd 0 cvs []

/-- UpdateOpcode models engine.Update opcodes; unset stands for the Go
zero value before the planner assigns an opcode. -/
inductive UpdateOpcode where
  | unset
  | unsharded
  | equal
  deriving DecidableEq, Repr

/-- EngineUpdate models the engine.Update plan object the planner
produces. -/
structure EngineUpdate where
  opcode : UpdateOpcode
  keyspaceName : String
  sharded : Bool
  query : String
  changedVindexValues : List (String × List PlanValue)
  ownedVindexQuery : String
  table : Option VTable
  vindexName : Option String
  values : List PlanValue
  deriving DecidableEq, Repr

/-- BuilderOutcome abstracts the result of processTableExprs (not under
src): either a single route (with keyspace name, sharded flag, presence
of a target-destination override, and the vindex tables of the symbol
table) or some other builder such as a join. -/
inductive BuilderOutcome where
  | route (ksName : String) (sharded : Bool) (hasTargetDestination : Bool)
      (tables : List (Option VTable))
  | nonRoute

/-- buildUpdatePlan mirrors the source function.  The outcomes of the
external helpers are passed in: qtext is the rendering produced by
generateQuery, processResult the outcome of processTableExprs,
validateSubquerySame the boolean of validateSubquerySamePlan, subq the
boolean of hasSubquery, and dmlRouting the outcome of getDMLRouting. -/
def buildUpdatePlan (upd : UpdateStmt) (qtext : String)
    (processResult : Except PlanError BuilderOutcome)
    (validateSubquerySame : Bool) (subq : Bool)
    (dmlRouting : Except PlanError (String × List PlanValue)) :
    Except PlanError EngineUpdate :=
  match processResult with
  | .error e => .error e
  | .ok .nonRoute => .error .multiTableUpdate
  | .ok (.route ks sharded target tables) =>
    if target then .error .targetDestination
    else if !sharded then
      if !validateSubquerySame then .error .shardedSubqueryDML
      else .ok { opcode := .unsharded, keyspaceName := ks, sharded := sharded,
                 query := qtext, changedVindexValues := [],
                 ownedVindexQuery := "", table := none, vindexName := none,
                 values := [] }
    else if subq then .error .subqueryInShardedDML
    else
      match tables with
      | [some t] =>
        match dmlRouting with
        | .error e => .error e
        | .ok (vn, vals) =>
          match buildChangedVindexesValues upd t.columnVindexes with
          | .error e => .error e
          | .ok cvv =>
            .ok { opcode := .equal, keyspaceName := ks, sharded := sharded,
                  query := qtext, changedVindexValues := cvv,
                  ownedVindexQuery :=
                    if cvv.isEmpty then "" else generateUpdateSubquery upd t,
                  table := some t, vindexName := some vn, values := vals }
      | [none] => .error .nilVindexTable
      | _ => .error .multiTableUpdate

/-- Modelled from the spec: sqltypes.Value (not under src) carries
either numerical content or raw non-numerical bytes; that is all the
resolver consults. -/
inductive SValue where
  | num (n : Nat)
  | raw (b : List Nat)
  deriving DecidableEq, Repr

/-- Modelled from the spec: sqltypes.Value.ToBytes (not under src)
returns the raw representation of the value; numerical content is its
decimal digit bytes, raw content is returned unchanged. -/
def toBytes : SValue → List Nat
  | .num n => (toString n).toList.map Char.toNat
  | .raw b => b

/-- Modelled from the spec: sqltypes.ToUint64 (not under src) parses
the value as an unsigned 64-bit integer and fails on non-numerical
content or on out-of-range content. -/
def toUint64 : SValue → Except String Nat
  | .num n => if n < 2 ^ 64 then .ok n else .error "out of range"
  | .raw _ => .error "could not parse value"

/-- uint64BE mirrors key.Uint64Key.Bytes (not under src): the 8-byte
big-endian encoding of an unsigned 64-bit integer. -/
def uint64BE (n : Nat) : List Nat :=
  [n / 2 ^ 56 % 256, n / 2 ^ 48 % 256, n / 2 ^ 40 % 256, n / 2 ^ 32 % 256,
   n / 2 ^ 24 % 256, n / 2 ^ 16 % 256, n / 2 ^ 8 % 256, n % 256]

/-- KeyspaceIdType models topodata.KeyspaceIdType. -/
inductive KeyspaceIdType where
  | unset
  | bytes
  | uint64
  deriving DecidableEq, Repr

/-- V2Resolver models v2Resolver: the keyspace sharding-column settings
and the located sharding-column index. -/
structure V2Resolver where
  shardingColumnName : String
  shardingColumnType : KeyspaceIdType
  shardingColumnIndex : Nat
  deriving DecidableEq, Repr

/-- errV2unsupported is the sentinel message of the v2 resolver. -/
def errV2unsupported : String := "Should debug unsupported for v2"

/-- PanicOr models the outcome of a Go call that can panic: either a
normal result or a panic with its message. -/
inductive PanicOr (α : Type) where
  | panicked (msg : String)
  | ok (a : α)
  deriving DecidableEq, Repr

/-- v2shouldDebug mirrors the source: it always returns the pair of the
boolean false and the v2-unsupported error. -/
def v2shouldDebug (_ : V2Resolver) : Bool × Option String :=
  (false, some errV2unsupported)

/-- v2primaryColumns mirrors the source: it panics with the
v2-unsupported message. -/
def v2primaryColumns (_ : V2Resolver) : PanicOr (List String) :=
  .panicked errV2unsupported

/-- v2primaryIndexes mirrors the source: it panics with the
v2-unsupported message. -/
def v2primaryIndexes (_ : V2Resolver) : PanicOr (List Nat) :=
  .panicked errV2unsupported

/-- V2KsidError enumerates the error returns of v2Resolver.keyspaceID. -/
inductive V2KsidError where
  | nonNumerical (msg : String)
  | unsupportedShardingColumnType
  deriving DecidableEq, Repr

/-- v2keyspaceID mirrors the source.  The row access row at the
sharding-column index panics in Go when the row is too short; that case
is the none result. -/
def v2keyspaceID (r : V2Resolver) (row : List SValue) :
    Option (Except V2KsidError (List Nat)) :=
  match row[r.shardingColumnIndex]? with
  | none => none
  | some v =>
    match r.shardingColumnType with
    | .bytes => some (.ok (toBytes v))
    | .uint64 =>
      match toUint64 v with
      | .error m => some (.error (.nonNumerical m))
      | .ok i => some (.ok (uint64BE i))
    | .unset => some (.error .unsupportedShardingColumnType)

/-- Destination models a key.Destination variant: either a resolved
keyspace id with its bytes, or any other variant. -/
inductive Destination where
  | ksid (b : List Nat)
  | other (kind : String)
  deriving DecidableEq, Repr

/-- V3KsidError enumerates the error returns of v3Resolver.keyspaceID,
each carrying the data the source formats into the message. -/
inductive V3KsidError where
  | mapFailure (msg : String)
  | invalidDestinationCount (dests : List Destination)
  | couldNotMap (v : SValue) (d : Destination)
  deriving DecidableEq, Repr

/-- TableDefinition models tabletmanagerdata.TableDefinition restricted
to the fields the resolver consults. -/
structure TableDefinition where
  name : String
  columns : List String
  primaryKeyColumns : List String
  isBaseTable : Bool
  deriving DecidableEq, Repr

/-- V3Resolver models v3Resolver: the sharding-column index, the Map
capability of the chosen vindex, and the table definition, which is
absent (nil in Go) when the resolver was built from a column list. -/
structure V3Resolver where
  shardingColumnIndex : Nat
  vmap : List SValue → Except String (List Destination)
  td : Option TableDefinition

/-- nilDerefMsg is the Go runtime panic message for dereferencing a nil
pointer. -/
def nilDerefMsg : String :=
  "runtime error: invalid memory address or nil pointer dereference"

/-- v3shouldDebug mirrors the source: it applies the debugTable
predicate (not under src, passed as dbg) to the table definition,
panicking when that definition is nil. -/
def v3shouldDebug (dbg : TableDefinition → Bool) (r : V3Resolver) :
    PanicOr Bool :=
  match r.td with
  | none => .panicked nilDerefMsg
  | some td => .ok (dbg td)

/-- v3primaryColumns mirrors the source: it reads the primary-key
column names off the table definition, panicking when that definition
is nil. -/
def v3primaryColumns (r : V3Resolver) : PanicOr (List String) :=
  match r.td with
  | none => .panicked nilDerefMsg
  | some td => .ok td.primaryKeyColumns

/-- firstIdx returns the index of the first element of the list equal
to the given name, mirroring a Go scan loop with a break. -/
def firstIdx : List String → String → Option Nat
  | [], _ => none
  | x :: xs, n => if x == n then some 0 else (firstIdx xs n).map (· + 1)

/-- primaryIndexesAux mirrors the outer loop of
v3Resolver.primaryIndexes: for each primary-key name, append the index
of its first occurrence in the full primary-key name list. -/
def primaryIndexesAux (pk : List String) : List String → List Nat
  | [] => []
  | n :: rest =>
    match firstIdx pk n with
    | some i => i :: primaryIndexesAux pk rest
    | none => primaryIndexesAux pk rest

/-- primaryIndexesList is the self-referential index computation of
v3Resolver.primaryIndexes over the primary-key name list. -/
def primaryIndexesList (pk : List String) : List Nat :=
  primaryIndexesAux pk pk

/-- v3primaryIndexes mirrors the source, panicking when the table
definition is nil. -/
def v3primaryIndexes (r : V3Resolver) : PanicOr (List Nat) :=
  match r.td with
  | none => .panicked nilDerefMsg
  | some td => .ok (primaryIndexesList td.primaryKeyColumns)

/-- v3keyspaceID mirrors the source: read the sharding-column value
(none models the Go panic on a too-short row), call the Map capability
on the one-value list, require exactly one destination, require it to
be a resolved keyspace id with non-empty bytes. -/
def v3keyspaceID (r : V3Resolver) (row : List SValue) :
    Option (Except V3KsidError (List Nat)) :=
  match row[r.shardingColumnIndex]? with
  | none => none
  | some v =>
    match r.vmap [v] with
    | .error m => some (.error (.mapFailure m))
    | .ok dests =>
      match dests with
      | [.ksid b] =>
        if b.isEmpty then some (.error (.couldNotMap v (.ksid b)))
        else some (.ok b)
      | [d] => some (.error (.couldNotMap v d))
      | _ => some (.error (.invalidDestinationCount dests))

/-- SchemaColVindex models a vindexes.ColumnVindex as the resolver
factories consult it: the covered columns and the Map capability. -/
structure SchemaColVindex where
  columns : List String
  vmap : List SValue → Except String (List Destination)

/-- TableSchema models a vindexes.Table entry of the keyspace schema. -/
structure TableSchema where
  columnVindexes : List SchemaColVindex

/-- newV3ResolverFromTableDefinition mirrors the source factory.  The
keyspace schema tables and the FindVindexForSharding selection rule
(both not under src) are passed in.  The source indexes
colVindex.Columns at 0, which would panic on an empty column list; that
degenerate case is folded into an error here and never arises in the
theorems below. -/
def newV3ResolverFromTableDefinition
    (fvs : String → List SchemaColVindex → Except String SchemaColVindex)
    (tables : List (String × TableSchema)) (td : TableDefinition) :
    Except String V3Resolver :=
  if !td.isBaseTable then
    .error "a keyspaceID resolver can only be created for a base table"
  else
    match tables.lookup td.name with
    | none => .error "no vschema definition for table"
    | some ts =>
      match fvs td.name ts.columnVindexes with
      | .error e => .error e
      | .ok cv =>
        match cv.columns with
        | [] => .error "internal: sharding vindex has no columns"
        | c0 :: _ =>
          match firstIdx td.columns c0 with
          | none => .error "table has a Vindex on unknown column"
          | some idx =>
            .ok { shardingColumnIndex := idx, vmap := cv.vmap, td := some td }

/-- newV3ResolverFromColumnList mirrors the source factory: the column
index is located in the explicit column list, and the resolver is built
with no table definition. -/
def newV3ResolverFromColumnList
    (fvs : String → List SchemaColVindex → Except String SchemaColVindex)
    (tables : List (String × TableSchema)) (name : String)
    (columns : List String) : Except String V3Resolver :=
  match tables.lookup name with
  | none => .error "no vschema definition for table"
  | some ts =>
    match fvs name ts.columnVindexes with
    | .error e => .error e
    | .ok cv =>
      match cv.columns with
      | [] => .error "internal: sharding vindex has no columns"
      | c0 :: _ =>
        match firstIdx columns c0 with
        | none => .error "table has a Vindex on unknown column"
        | some idx =>
          .ok { shardingColumnIndex := idx, vmap := cv.vmap, td := none }

/-!  Concrete fixtures used by counterexamples and witnesses. -/

/-- hashVindexF is a primary-style column vindex over column a. -/
def hashVindexF : ColumnVindex :=
  { name := "hashidx", columns := ["a"], owned := false, isLookup := false }

/-- lookupVindexF is an owned lookup vindex over column b. -/
def lookupVindexF : ColumnVindex :=
  { name := "lkpidx", columns := ["b"], owned := true, isLookup := true }

/-- tableF is a table carrying the primary vindex and the owned lookup
vindex, with the owned list as the vschema builder would populate it. -/
def tableF : VTable :=
  { name := "t", columnVindexes := [hashVindexF, lookupVindexF],
    owned := [lookupVindexF] }

/-- updSetPrimaryComplex assigns the primary-vindex column a a complex
expression, as in set a equal to a plus 1. -/
def updSetPrimaryComplex : UpdateStmt :=
  { exprs := [{ name := "a", expr := .complex }], whereStr := "",
    orderBy := [], limit := none }

/-- updSetPrimaryLiteral assigns the primary-vindex column a the
literal 5. -/
def updSetPrimaryLiteral : UpdateStmt :=
  { exprs := [{ name := "a", expr := .intVal 5 }], whereStr := "",
    orderBy := [], limit := none }

/-- updSetLookupLiteral assigns the owned-lookup column b the literal
3, with a WHERE clause rendering. -/
def updSetLookupLiteral : UpdateStmt :=
  { exprs := [{ name := "b", expr := .intVal 3 }],
    whereStr := " where a = 1", orderBy := [], limit := none }

/-- updSetLookupComplex assigns the owned-lookup column b a complex
expression, as in set b equal to b plus 1. -/
def updSetLookupComplex : UpdateStmt :=
  { exprs := [{ name := "b", expr := .complex }], whereStr := "",
    orderBy := [], limit := none }

/-- updDupComplexFirst assigns column a twice, the first assignment
carrying a complex expression. -/
def updDupComplexFirst : UpdateStmt :=
  { exprs := [{ name := "a", expr := .complex },
              { name := "a", expr := .intVal 5 }],
    whereStr := "", orderBy := [], limit := none }

/-- updDupLiterals assigns column a twice, both times with literals. -/
def updDupLiterals : UpdateStmt :=
  { exprs := [{ name := "a", expr := .intVal 5 },
              { name := "a", expr := .intVal 6 }],
    whereStr := "", orderBy := [], limit := none }

/-- fvsW is a concrete vindex-for-sharding selection rule picking the
first column vindex of the table. -/
def fvsW : String → List SchemaColVindex → Except String SchemaColVindex :=
  fun _ cvs =>
    match cvs with
    | cv :: _ => .ok cv
    | [] => .error "no vindex"

/-- schemaColVindexW is a concrete schema vindex over column c. -/
def schemaColVindexW : SchemaColVindex :=
  { columns := ["c"], vmap := fun _ => .ok [] }

/-- tablesW is a concrete one-table keyspace schema. -/
def tablesW : List (String × TableSchema) :=
  [("t", { columnVindexes := [schemaColVindexW] })]

/-- resolverW is the resolver newV3ResolverFromColumnList builds from
tablesW, with no table definition. -/
def resolverW : V3Resolver :=
  { shardingColumnIndex := 0, vmap := schemaColVindexW.vmap, td := none }

/-!  Helper lemmas. -/

theorem newPlanValue_ok (e : SqlExpr) (h : isValue e = true) :
    ∃ pv, newPlanValue e = .ok pv := by
  cases e with
  | strVal s => exact ⟨.value (.strVal s), rfl⟩
  | hexVal s => exact ⟨.value (.hexVal s), rfl⟩
  | intVal n => exact ⟨.value (.intVal n), rfl⟩
  | valArg n => exact ⟨.key n, rfl⟩
  | complex => simp [isValue] at h

theorem extract_ok (a : UpdateExpr) (h : isValue a.expr = true) :
    ∃ pv, extractValueFromUpdate a = .ok pv := by
  obtain ⟨pv, hpv⟩ := newPlanValue_ok a.expr h
  exact ⟨pv, by simp [extractValueFromUpdate, h, hpv]⟩

theorem scan_no_match (c : String) :
    ∀ (exprs : List UpdateExpr), (∀ a ∈ exprs, (a.name == c) = false) →
      ∀ acc, scanAssignments c exprs acc = .ok acc
  | [], _, acc => rfl
  | a :: rest, h, acc => by
    have ha := h a (List.mem_cons_self a rest)
    simp only [scanAssignments, ha, Bool.false_eq_true, if_false]
    exact scan_no_match c rest (fun b hb => h b (List.mem_cons_of_mem a hb)) acc

theorem scan_single (c : String) :
    ∀ (exprs : List UpdateExpr),
      (exprs.filter (fun a => a.name == c)).length = 1 →
      (∀ a ∈ exprs, (a.name == c) = true → isValue a.expr = true) →
      ∃ pv, scanAssignments c exprs none = .ok (some pv)
  | [], hc, _ => by simp at hc
  | a :: rest, hc, hval => by
    by_cases ha : (a.name == c) = true
    · have hvala : isValue a.expr = true :=
        hval a (List.mem_cons_self a rest) ha
      obtain ⟨pv, hpv⟩ := extract_ok a hvala
      have hlen0 : (rest.filter (fun a => a.name == c)).length = 0 := by
        simp only [List.filter_cons, ha, if_true, List.length_cons] at hc
        omega
      have hrest : ∀ b ∈ rest, (b.name == c) = false := by
        intro b hb
        by_contra hbc
        have hbt : (b.name == c) = true := by
          cases hbeq : b.name == c
          · exact absurd hbeq hbc
          · rfl
        have : b ∈ rest.filter (fun a => a.name == c) :=
          List.mem_filter.mpr ⟨hb, hbt⟩
        rw [List.length_eq_zero.mp hlen0] at this
        exact absurd this (List.not_mem_nil b)
      refine ⟨pv, ?_⟩
      simp only [scanAssignments, ha, if_true, hpv]
      exact scan_no_match c rest hrest (some pv)
    · have ha' : (a.name == c) = false := by
        cases hbeq : a.name == c
        · rfl
        · exact absurd hbeq ha
      have hc' : (rest.filter (fun a => a.name == c)).length = 1 := by
        simpa [List.filter_cons, ha'] using hc
      obtain ⟨pv, hp⟩ := scan_single c rest hc'
        (fun b hb => hval b (List.mem_cons_of_mem a hb))
      refine ⟨pv, ?_⟩
      simp only [scanAssignments, ha', Bool.false_eq_true, if_false]
      exact hp

theorem vvf_all_single (exprs : List UpdateExpr) :
    ∀ cols : List String,
      (∀ c ∈ cols, (exprs.filter (fun a => a.name == c)).length = 1 ∧
        ∀ a ∈ exprs, (a.name == c) = true → isValue a.expr = true) →
      ∃ vals, vindexValuesFor exprs cols = .ok vals ∧
        vals.length = cols.length
  | [], _ => ⟨[], rfl, rfl⟩
  | c :: rest, h => by
    obtain ⟨pv, hp⟩ := scan_single c exprs
      (h c (List.mem_cons_self c rest)).1 (h c (List.mem_cons_self c rest)).2
    obtain ⟨tail, htail, hlen⟩ := vvf_all_single exprs rest
      (fun c' hc' => h c' (List.mem_cons_of_mem c hc'))
    refine ⟨pv :: tail, ?_, by simp [hlen]⟩
    simp only [vindexValuesFor, hp, htail]

theorem scan_dup_some (c : String) :
    ∀ (exprs : List UpdateExpr), (∃ a ∈ exprs, (a.name == c) = true) →
      ∀ pv, scanAssignments c exprs (some pv) =
        .error (.duplicateSetValues c)
  | [], h, _ => by simp at h
  | a :: rest, h, pv => by
    by_cases ha : (a.name == c) = true
    · have hn : a.name = c := eq_of_beq ha
      simp only [scanAssignments, ha, if_true, hn, beq_self_eq_true]
    · have ha' : (a.name == c) = false := by
        cases hbeq : a.name == c
        · rfl
        · exact absurd hbeq ha
      have hrest : ∃ b ∈ rest, (b.name == c) = true := by
        obtain ⟨b, hb, hbt⟩ := h
        rcases List.mem_cons.mp hb with h1 | h1
        · subst h1; exact absurd hbt ha
        · exact ⟨b, h1, hbt⟩
      simp only [scanAssignments, ha', Bool.false_eq_true, if_false]
      exact scan_dup_some c rest hrest pv

theorem scan_dup_none (c : String) :
    ∀ (exprs : List UpdateExpr),
      2 ≤ (exprs.filter (fun a => a.name == c)).length →
      (∀ a ∈ exprs, (a.name == c) = true → isValue a.expr = true) →
      scanAssignments c exprs none = .error (.duplicateSetValues c)
  | [], h, _ => by simp at h
  | a :: rest, h, hval => by
    by_cases ha : (a.name == c) = true
    · have hvala : isValue a.expr = true :=
        hval a (List.mem_cons_self a rest) ha
      obtain ⟨pv, hpv⟩ := extract_ok a hvala
      have hpos : 0 < (rest.filter (fun a => a.name == c)).length := by
        simp only [List.filter_cons, ha, if_true, List.length_cons] at h
        omega
      have hrest : ∃ b ∈ rest, (b.name == c) = true := by
        obtain ⟨b, hb⟩ := List.exists_mem_of_length_pos hpos
        have hmf := List.mem_filter.mp hb
        exact ⟨b, hmf.1, hmf.2⟩
      simp only [scanAssignments, ha, if_true, hpv]
      exact scan_dup_some c rest hrest pv
    · have ha' : (a.name == c) = false := by
        cases hbeq : a.name == c
        · rfl
        · exact absurd hbeq ha
      have h' : 2 ≤ (rest.filter (fun a => a.name == c)).length := by
        simpa [List.filter_cons, ha'] using h
      simp only [scanAssignments, ha', Bool.false_eq_true, if_false]
      exact scan_dup_none c rest h'
        (fun b hb => hval b (List.mem_cons_of_mem a hb))

theorem scan_le_one (c : String) (exprs : List UpdateExpr)
    (h : (exprs.filter (fun a => a.name == c)).length ≤ 1)
    (hval : ∀ a ∈ exprs, (a.name == c) = true → isValue a.expr = true) :
    ∃ res, scanAssignments c exprs none = .ok res := by
  cases hl : (exprs.filter (fun a => a.name == c)).length with
  | zero =>
    have hnil := List.length_eq_zero.mp hl
    have hno : ∀ a ∈ exprs, (a.name == c) = false := by
      intro a hma
      by_contra hac
      have hat : (a.name == c) = true := by
        cases hbeq : a.name == c
        · exact absurd hbeq hac
        · rfl
      have : a ∈ exprs.filter (fun a => a.name == c) :=
        List.mem_filter.mpr ⟨hma, hat⟩
      rw [hnil] at this
      exact absurd this (List.not_mem_nil a)
    exact ⟨none, scan_no_match c exprs hno none⟩
  | succ n =>
    cases n with
    | zero =>
      obtain ⟨pv, hp⟩ := scan_single c exprs hl hval
      exact ⟨some pv, hp⟩
    | succ m => omega

theorem vvf_dup (exprs : List UpdateExpr) (c : String) (cpost : List String)
    (hdup : 2 ≤ (exprs.filter (fun a => a.name == c)).length)
    (hval : ∀ a ∈ exprs, isValue a.expr = true) :
    ∀ cpre : List String,
      (∀ c' ∈ cpre, (exprs.filter (fun a => a.name == c')).length ≤ 1) →
      vindexValuesFor exprs (cpre ++ c :: cpost) =
        .error (.duplicateSetValues c)
  | [], _ => by
    have hscan := scan_dup_none c exprs hdup (fun a ha _ => hval a ha)
    simp only [List.nil_append, vindexValuesFor, hscan]
  | c' :: cpre', hle => by
    obtain ⟨res, hres⟩ := scan_le_one c' exprs
      (hle c' (List.mem_cons_self c' cpre'))
      (fun a ha _ => hval a ha)
    have htail := vvf_dup exprs c cpost hdup hval cpre'
      (fun x hx => hle x (List.mem_cons_of_mem c' hx))
    simp only [List.cons_append, List.append_eq, vindexValuesFor, hres, htail]

theorem bcvv_append (upd : UpdateStmt) :
    ∀ (xs : List ColumnVindex) (i : Nat)
      (acc acc' : List (String × List PlanValue)),
      bcvvAux upd i xs acc = .ok acc' →
      ∀ ys, bcvvAux upd i (xs ++ ys) acc =
        bcvvAux upd (i + xs.length) ys acc'
  | [], i, acc, acc', h, ys => by
    simp only [bcvvAux] at h
    cases h
    simp
  | v :: xs', i, acc, acc', h, ys => by
    simp only [bcvvAux, List.cons_append, List.append_eq] at h ⊢
    cases hvv : vindexValuesFor upd.exprs v.columns with
    | error e => rw [hvv] at h; exact Except.noConfusion h
    | ok vals =>
      rw [hvv] at h
      by_cases he : vals.isEmpty
      · simp only [he, if_true] at h ⊢
        have := bcvv_append upd xs' (i + 1) acc acc' h ys
        rw [this]
        congr 1
        simp only [List.length_cons]
        omega
      · have he' : vals.isEmpty = false := by
          cases hb : vals.isEmpty
          · rfl
          · exact absurd hb he
        simp only [he', Bool.false_eq_true, if_false] at h ⊢
        by_cases hl : (vals.length != v.columns.length) = true
        · rw [if_pos hl] at h; exact Except.noConfusion h
        · have hl' : (vals.length != v.columns.length) = false := by
            cases hb : vals.length != v.columns.length
            · rfl
            · exact absurd hb hl
          simp only [hl', Bool.false_eq_true, if_false] at h ⊢
          by_cases hlim : (upd.limit.isSome && upd.orderBy.isEmpty) = true
          · rw [if_pos hlim] at h; exact Except.noConfusion h
          · have hlim' : (upd.limit.isSome && upd.orderBy.isEmpty) = false := by
              cases hb : upd.limit.isSome && upd.orderBy.isEmpty
              · rfl
              · exact absurd hb hlim
            simp only [hlim', Bool.false_eq_true, if_false] at h ⊢
            by_cases hi : (i == 0) = true
            · rw [if_pos hi] at h; exact Except.noConfusion h
            · have hi' : (i == 0) = false := by
                cases hb : i == 0
                · rfl
                · exact absurd hb hi
              simp only [hi', Bool.false_eq_true, if_false] at h ⊢
              by_cases hlk : (!v.isLookup) = true
              · rw [if_pos hlk] at h; exact Except.noConfusion h
              · have hlk' : (!v.isLookup) = false := by
                  cases hb : !v.isLookup
                  · rfl
                  · exact absurd hb hlk
                simp only [hlk', Bool.false_eq_true, if_false] at h ⊢
                by_cases how : (!v.owned) = true
                · rw [if_pos how] at h; exact Except.noConfusion h
                · have how' : (!v.owned) = false := by
                    cases hb : !v.owned
                    · rfl
                    · exact absurd hb how
                  simp only [how', Bool.false_eq_true, if_false] at h ⊢
                  have := bcvv_append upd xs' (i + 1)
                    (acc ++ [(v.name, vals)]) acc' h ys
                  rw [this]
                  congr 1
                  simp only [List.length_cons]
                  omega

theorem commaPrefixed_append :
    ∀ l1 l2 : List String,
      commaPrefixed (l1 ++ l2) = commaPrefixed l1 ++ commaPrefixed l2
  | [], l2 => by simp [commaPrefixed]
  | c :: cs, l2 => by
    simp only [List.cons_append, List.append_eq, commaPrefixed,
      commaPrefixed_append cs l2, String.append_assoc]

theorem restColumnsText_flatten :
    ∀ L : List (List String), restColumnsText L = commaPrefixed L.flatten
  | [] => rfl
  | cols :: rest => by
    simp only [restColumnsText, List.flatten_cons, commaPrefixed_append,
      restColumnsText_flatten rest]

theorem ownedColumnsText_flatten :
    ∀ L : List (List String), (∀ l ∈ L, l ≠ []) →
      ownedColumnsText L = commaSeparated L.flatten
  | [], _ => rfl
  | cols :: rest, h => by
    cases cols with
    | nil => exact absurd rfl (h [] (List.mem_cons_self [] rest))
    | cons c cs =>
      have e1 : ownedColumnsText ((c :: cs) :: rest) =
          (c ++ commaPrefixed cs) ++ restColumnsText rest := rfl
      have e2 : ((c :: cs) :: rest).flatten = c :: (cs ++ rest.flatten) := rfl
      have e3 : commaSeparated (c :: (cs ++ rest.flatten)) =
          c ++ commaPrefixed (cs ++ rest.flatten) := rfl
      rw [e1, e2, e3, commaPrefixed_append, restColumnsText_flatten,
        String.append_assoc]

theorem firstIdx_mem (n : String) :
    ∀ (l : List String), n ∈ l → firstIdx l n = some (l.indexOf n)
  | x :: xs, h => by
    simp only [firstIdx]
    by_cases hx : x = n
    · subst hx
      simp [List.indexOf_cons_self]
    · have hbeq : (x == n) = false := by simp [hx]
      simp only [hbeq, if_false]
      have hm : n ∈ xs := by
        rcases List.mem_cons.mp h with h1 | h1
        · exact absurd h1.symm hx
        · exact h1
      rw [firstIdx_mem n xs hm, List.indexOf_cons_ne _ hx]
      rfl

theorem primaryIndexesAux_map (pk : List String) :
    ∀ l : List String, (∀ n ∈ l, n ∈ pk) →
      primaryIndexesAux pk l = l.map (fun n => pk.indexOf n)
  | [], _ => rfl
  | n :: rest, h => by
    have hn : n ∈ pk := h n (List.mem_cons_self n rest)
    have hrest : ∀ m ∈ rest, m ∈ pk := fun m hm => h m (List.mem_cons_of_mem n hm)
    simp only [primaryIndexesAux, firstIdx_mem n pk hn, List.map_cons]
    rw [primaryIndexesAux_map pk rest hrest]

/-!  Claim theorems. -/

/-- Claim C2: for every v3 resolver, primaryIndexes returns, for each
declared primary-key column name in order, the index of the first
occurrence of that name within the primary-key name list itself; for
the duplicate-free primary-key list of b then a it returns 0 then 1. -/
theorem c2_primaryIndexes_self_referential :
    (∀ pk : List String, primaryIndexesList pk = pk.map (fun n => pk.indexOf n)) ∧
    primaryIndexesList ["b", "a"] = [0, 1] ∧
    (∀ td : TableDefinition,
      v3primaryIndexes { shardingColumnIndex := 0, vmap := fun _ => .ok [], td := some td } =
        .ok (td.primaryKeyColumns.map (fun n => td.primaryKeyColumns.indexOf n))) := by
  refine ⟨fun pk => primaryIndexesAux_map pk pk (fun n hn => hn), by decide, fun td => ?_⟩
  simp only [v3primaryIndexes, primaryIndexesList]
  rw [primaryIndexesAux_map td.primaryKeyColumns td.primaryKeyColumns (fun n hn => hn)]

/-- Claim C3: on the fixed-column (v2) resolver, shouldDebug always
returns the distinct v2-unsupported error (never a successful boolean),
and primaryColumns and primaryIndexes panic with that same distinct
message instead of returning a normal empty or non-empty result. -/
theorem c3_v2_accessors_unsupported :
    ∀ r : V2Resolver,
      v2shouldDebug r = (false, some errV2unsupported) ∧
      v2primaryColumns r = .panicked errV2unsupported ∧
      v2primaryIndexes r = .panicked errV2unsupported ∧
      (∀ cols : List String, v2primaryColumns r ≠ .ok cols) ∧
      (∀ idxs : List Nat, v2primaryIndexes r ≠ .ok idxs) :=
  fun _ => ⟨rfl, rfl, rfl, fun _ h => PanicOr.noConfusion h,
    fun _ h => PanicOr.noConfusion h⟩

/-- Claim C8: for every UPDATE whose table resolves to a single simple
route in an unsharded keyspace with no target-destination override and
whose subqueries all plan against the same keyspace, buildUpdatePlan
succeeds with the unsharded opcode, the query text is the rendering of
the original statement, and ChangedVindexValues stays empty; the
sharded vindex analysis is never reached on this path. -/
theorem c8_unsharded_plan (upd : UpdateStmt) (qtext ks : String)
    (tables : List (Option VTable)) (subq : Bool)
    (dmlRouting : Except PlanError (String × List PlanValue)) :
    buildUpdatePlan upd qtext (.ok (.route ks false false tables)) true subq
        dmlRouting =
      .ok { opcode := .unsharded, keyspaceName := ks, sharded := false,
            query := qtext, changedVindexValues := [], ownedVindexQuery := "",
            table := none, vindexName := none, values := [] } := rfl

/-- Claim C5: for every v3 resolver and every row containing the
sharding column, keyspaceID succeeds with bytes b exactly when the Map
call on the sharding-column value returns precisely one destination
that is a resolved keyspace id with non-empty bytes b; a Map error, a
destination count different from one, a wrong variant or an empty id
each yield the error that carries the offending value or destinations. -/
theorem c5_v3_keyspaceID_iff (r : V3Resolver) (row : List SValue) (v : SValue)
    (hv : row[r.shardingColumnIndex]? = some v) :
    (∀ b : List Nat,
      v3keyspaceID r row = some (.ok b) ↔
        (r.vmap [v] = .ok [Destination.ksid b] ∧ b ≠ [])) ∧
    (∀ m, r.vmap [v] = .error m →
      v3keyspaceID r row = some (.error (.mapFailure m))) ∧
    (∀ dests, r.vmap [v] = .ok dests → dests.length ≠ 1 →
      v3keyspaceID r row = some (.error (.invalidDestinationCount dests))) ∧
    (∀ d, r.vmap [v] = .ok [d] → (∀ b, d = Destination.ksid b → b = []) →
      v3keyspaceID r row = some (.error (.couldNotMap v d))) := by
  have hbase : v3keyspaceID r row =
      (match r.vmap [v] with
        | .error m => some (.error (.mapFailure m))
        | .ok dests =>
          match dests with
          | [Destination.ksid b] =>
            if b.isEmpty then some (.error (.couldNotMap v (.ksid b)))
            else some (.ok b)
          | [d] => some (.error (.couldNotMap v d))
          | _ => some (.error (.invalidDestinationCount dests))) := by
    simp only [v3keyspaceID, hv]
  refine ⟨fun b => ?_, fun m hm => ?_, fun dests hm hlen => ?_, fun d hm hd => ?_⟩
  · rw [hbase]
    cases hm : r.vmap [v] with
    | error m => simp
    | ok dests =>
      match dests with
      | [] => simp
      | [Destination.ksid b'] =>
        cases b' with
        | nil => simp
        | cons x xs =>
          simp [eq_comm, and_iff_left_iff_imp]
          rintro rfl
          simp
      | [Destination.other k] => simp
      | d1 :: d2 :: rest => cases d1 <;> simp
  · rw [hbase, hm]
  · rw [hbase, hm]
    match dests with
    | [] => rfl
    | [d] => simp at hlen
    | d1 :: d2 :: rest => cases d1 <;> rfl
  · rw [hbase, hm]
    match d with
    | Destination.ksid b =>
      have hb : b = [] := hd b rfl
      subst hb
      rfl
    | Destination.other k => rfl

/-- Witness for C5: a vindex map returning one resolved keyspace id of
length 2 makes keyspaceID return those 2 bytes. -/
theorem c5_witness :
    v3keyspaceID
      { shardingColumnIndex := 0,
        vmap := fun _ => .ok [Destination.ksid [1, 2]], td := none }
      [SValue.num 7] = some (.ok [1, 2]) :=
  ((c5_v3_keyspaceID_iff
      { shardingColumnIndex := 0,
        vmap := fun _ => .ok [Destination.ksid [1, 2]], td := none }
      [SValue.num 7] (SValue.num 7) rfl).1 [1, 2]).mpr ⟨rfl, by decide⟩

/-- Claim C6: for every v2 resolver and every row long enough to
contain the sharding column, a bytes-typed column returns the raw bytes
unchanged, a uint64-typed column parses the value (failing with a
non-numerical error otherwise) and returns the 8-byte big-endian
encoding, and any other declared type yields the unsupported-type
error; 300 encodes big-endian as 0x000000000000012C. -/
theorem c6_v2_keyspaceID (r : V2Resolver) (row : List SValue) (v : SValue)
    (hv : row[r.shardingColumnIndex]? = some v) :
    (r.shardingColumnType = .bytes →
      v2keyspaceID r row = some (.ok (toBytes v))) ∧
    (∀ b, toBytes (SValue.raw b) = b) ∧
    (∀ n, r.shardingColumnType = .uint64 → toUint64 v = .ok n →
      v2keyspaceID r row = some (.ok (uint64BE n))) ∧
    (∀ m, r.shardingColumnType = .uint64 → toUint64 v = .error m →
      v2keyspaceID r row = some (.error (.nonNumerical m))) ∧
    (r.shardingColumnType = .unset →
      v2keyspaceID r row = some (.error .unsupportedShardingColumnType)) ∧
    uint64BE 300 = [0, 0, 0, 0, 0, 0, 1, 44] := by
  refine ⟨fun ht => ?_, fun b => rfl, fun n ht hn => ?_, fun m ht hm => ?_,
    fun ht => ?_, by decide⟩
  · simp only [v2keyspaceID, hv, ht]
  · simp only [v2keyspaceID, hv, ht, hn]
  · simp only [v2keyspaceID, hv, ht, hm]
  · simp only [v2keyspaceID, hv, ht]

/-- Witness for C6: with a uint64 sharding column, the row value 300
resolves to its 8-byte big-endian encoding. -/
theorem c6_witness :
    v2keyspaceID
      { shardingColumnName := "keyspace_id",
        shardingColumnType := KeyspaceIdType.uint64, shardingColumnIndex := 0 }
      [SValue.num 300] = some (.ok [0, 0, 0, 0, 0, 0, 1, 44]) := by
  have h := c6_v2_keyspaceID
    { shardingColumnName := "keyspace_id",
      shardingColumnType := KeyspaceIdType.uint64, shardingColumnIndex := 0 }
    [SValue.num 300] (SValue.num 300) rfl
  rw [h.2.2.1 300 rfl rfl, h.2.2.2.2.2]

/-- Claim C10: a v3 resolver built from an explicit column list carries
no table definition, so only keyspaceID (which never consults the table
definition) is safe to call, while shouldDebug, primaryColumns and
primaryIndexes hit the nil table definition instead of returning table
data or the distinct v2-style unsupported error; a resolver built from
a table definition supports all four operations. -/
theorem c10_column_list_resolver
    (fvs : String → List SchemaColVindex → Except String SchemaColVindex)
    (tables : List (String × TableSchema)) (name : String)
    (columns : List String) (dbg : TableDefinition → Bool) (r : V3Resolver)
    (h : newV3ResolverFromColumnList fvs tables name columns = .ok r) :
    r.td = none ∧
    v3shouldDebug dbg r = .panicked nilDerefMsg ∧
    v3primaryColumns r = .panicked nilDerefMsg ∧
    v3primaryIndexes r = .panicked nilDerefMsg ∧
    (∀ (row : List SValue) (td' : Option TableDefinition),
      v3keyspaceID
        { shardingColumnIndex := r.shardingColumnIndex, vmap := r.vmap,
          td := td' } row = v3keyspaceID r row) ∧
    (∀ (td : TableDefinition) (r2 : V3Resolver),
      newV3ResolverFromTableDefinition fvs tables td = .ok r2 →
        r2.td = some td ∧
        v3shouldDebug dbg r2 = .ok (dbg td) ∧
        v3primaryColumns r2 = .ok td.primaryKeyColumns ∧
        v3primaryIndexes r2 = .ok (primaryIndexesList td.primaryKeyColumns)) := by
  have htd : r.td = none := by
    unfold newV3ResolverFromColumnList at h
    repeat' split at h
    all_goals cases h
    rfl
  refine ⟨htd, ?_, ?_, ?_, fun row td' => rfl, fun td r2 h2 => ?_⟩
  · unfold v3shouldDebug
    rw [htd]
  · unfold v3primaryColumns
    rw [htd]
  · unfold v3primaryIndexes
    rw [htd]
  · have htd2 : r2.td = some td := by
      unfold newV3ResolverFromTableDefinition at h2
      repeat' split at h2
      all_goals cases h2
      rfl
    refine ⟨htd2, ?_, ?_, ?_⟩
    · unfold v3shouldDebug
      rw [htd2]
    · unfold v3primaryColumns
      rw [htd2]
    · unfold v3primaryIndexes
      rw [htd2]

/-- Witness for C10: a concrete schema with one table whose single
vindex covers column c; building the resolver from the column list
succeeds, and shouldDebug on the result hits the nil table
definition. -/
theorem c10_witness :
    v3shouldDebug (fun _ => true) resolverW = .panicked nilDerefMsg :=
  (c10_column_list_resolver fvsW tablesW "t" ["c"] (fun _ => true)
    resolverW rfl).2.1

/-- Claim C7: during changed-vindex detection, value extraction accepts
exactly the literal values (string, hex, integer) and bind-variable
placeholders; any other expression yields the only-values-supported
error naming the column, and a SET of an owned-lookup column to a
complex expression makes the whole detection fail with that error. -/
theorem c7_only_values :
    (∀ a : UpdateExpr, isValue a.expr = false →
      extractValueFromUpdate a = .error (.onlyValuesSupported a.name)) ∧
    (∀ a : UpdateExpr, isValue a.expr = true →
      ∃ pv, extractValueFromUpdate a = .ok pv) ∧
    buildChangedVindexesValues updSetLookupComplex
        [hashVindexF, lookupVindexF] =
      .error (.onlyValuesSupported "b") := by
  refine ⟨fun a h => ?_, fun a h => extract_ok a h, rfl⟩
  simp [extractValueFromUpdate, h]

/-- Witness for C7: a complex assignment is rejected with the
only-values error and a literal assignment extracts successfully. -/
theorem c7_witness :
    extractValueFromUpdate { name := "x", expr := SqlExpr.complex } =
      .error (.onlyValuesSupported "x") ∧
    ∃ pv, extractValueFromUpdate { name := "x", expr := SqlExpr.intVal 5 } =
      .ok pv :=
  ⟨c7_only_values.1 { name := "x", expr := SqlExpr.complex } rfl,
   c7_only_values.2.1 { name := "x", expr := SqlExpr.intVal 5 } rfl⟩

/-- Counterexample to claim C1 as stated: a sharded UPDATE assigning
the primary-vindex column a the complex expression a plus 1 fails with
the only-values-supported error, not with the primary-vindex error, so
the primary-vindex error is not raised regardless of the validity of
the assigned value. -/
theorem c1_counterexample :
    buildUpdatePlan updSetPrimaryComplex "update t set a = a + 1"
        (.ok (.route "ks" true false [some tableF])) true false
        (.ok ("hashidx", [])) =
      .error (.onlyValuesSupported "a") ∧
    PlanError.onlyValuesSupported "a" ≠
      PlanError.primaryVindexUpdate "hashidx" :=
  ⟨rfl, fun h => PlanError.noConfusion h⟩

/-- Claim C1 (amended): for every sharded UPDATE whose SET list assigns
every column of the primary vindex exactly once with a simple value
expression (literal or bind variable), and which does not use LIMIT
without ORDER BY, buildUpdatePlan fails with the primary-vindex error;
when the assigned value is a complex expression the extraction error
preempts it. -/
theorem c1_amended (upd : UpdateStmt) (qtext ks vn : String)
    (vals : List PlanValue) (vsub : Bool) (t : VTable) (v0 : ColumnVindex)
    (rest : List ColumnVindex)
    (ht : t.columnVindexes = v0 :: rest)
    (hc0 : v0.columns ≠ [])
    (hone : ∀ c ∈ v0.columns,
      (upd.exprs.filter (fun a => a.name == c)).length = 1 ∧
      ∀ a ∈ upd.exprs, (a.name == c) = true → isValue a.expr = true)
    (hlim : ¬(upd.limit.isSome = true ∧ upd.orderBy = [])) :
    buildUpdatePlan upd qtext (.ok (.route ks true false [some t])) vsub
        false (.ok (vn, vals)) =
      .error (.primaryVindexUpdate v0.name) := by
  obtain ⟨vals0, hv0, hlen0⟩ := vvf_all_single upd.exprs v0.columns hone
  have hemp : vals0.isEmpty = false := by
    cases hv : vals0 with
    | nil =>
      rw [hv] at hlen0
      exact absurd (List.length_eq_zero.mp hlen0.symm) hc0
    | cons x xs => rfl
  have hbne : (vals0.length != v0.columns.length) = false := by
    simp [hlen0]
  have hlimf : (upd.limit.isSome && upd.orderBy.isEmpty) = false := by
    cases hl : upd.limit.isSome with
    | false => rfl
    | true =>
      cases ho : upd.orderBy with
      | nil => exact absurd ⟨hl, ho⟩ hlim
      | cons x xs => rfl
  have hbc : buildChangedVindexesValues upd t.columnVindexes =
      .error (.primaryVindexUpdate v0.name) := by
    rw [ht]
    unfold buildChangedVindexesValues
    simp only [bcvvAux, hv0, hemp, Bool.false_eq_true, if_false, hbne,
      hlimf, beq_self_eq_true, if_true]
  simp only [buildUpdatePlan, Bool.not_true, Bool.false_eq_true, if_false,
    Bool.not_false, if_true, hbc]

/-- Witness for C1 (amended): assigning the single primary-vindex
column the literal 5 fails with the primary-vindex error. -/
theorem c1_witness :
    buildUpdatePlan updSetPrimaryLiteral "update t set a = 5"
        (.ok (.route "ks" true false [some tableF])) true false
        (.ok ("hashidx", [])) =
      .error (.primaryVindexUpdate "hashidx") :=
  c1_amended updSetPrimaryLiteral "update t set a = 5" "ks" "hashidx" []
    true tableF hashVindexF [lookupVindexF] rfl (by decide)
    (by decide) (by decide)

/-- Counterexample to claim C9 as stated: with column a of the primary
vindex assigned twice, the first assignment carrying a complex
expression, planning fails with the only-values-supported error rather
than the duplicate-set-values error naming the column. -/
theorem c9_counterexample :
    buildChangedVindexesValues updDupComplexFirst [hashVindexF] =
      .error (.onlyValuesSupported "a") ∧
    PlanError.onlyValuesSupported "a" ≠ PlanError.duplicateSetValues "a" :=
  ⟨rfl, fun h => PlanError.noConfusion h⟩

/-- Claim C9 (amended): during changed-vindex detection of a sharded
UPDATE, for every column c covered by some column-vindex, if the SET
list assigns c two or more times, all SET values are simple value
expressions, columns scanned before c in that vindex are assigned at
most once, and the vindexes before it in declaration order are
processed without failing, then planning fails with the
duplicate-set-values error naming c; this includes the primary vindex
at index 0, whose duplicate check precedes the primary-vindex check. -/
theorem c9_amended (upd : UpdateStmt) (qtext ks vn : String)
    (vals : List PlanValue) (vsub : Bool) (t : VTable)
    (pre : List ColumnVindex) (v : ColumnVindex) (post : List ColumnVindex)
    (cpre : List String) (c : String) (cpost : List String)
    (ht : t.columnVindexes = pre ++ v :: post)
    (hcols : v.columns = cpre ++ c :: cpost)
    (hpre : ∃ acc, bcvvAux upd 0 pre [] = .ok acc)
    (hle : ∀ c' ∈ cpre, (upd.exprs.filter (fun a => a.name == c')).length ≤ 1)
    (hval : ∀ a ∈ upd.exprs, isValue a.expr = true)
    (hdup : 2 ≤ (upd.exprs.filter (fun a => a.name == c)).length) :
    buildUpdatePlan upd qtext (.ok (.route ks true false [some t])) vsub
        false (.ok (vn, vals)) =
      .error (.duplicateSetValues c) := by
  obtain ⟨acc, hacc⟩ := hpre
  have hvvf : vindexValuesFor upd.exprs v.columns =
      .error (.duplicateSetValues c) := by
    rw [hcols]
    exact vvf_dup upd.exprs c cpost hdup hval cpre hle
  have hbc : buildChangedVindexesValues upd t.columnVindexes =
      .error (.duplicateSetValues c) := by
    rw [ht]
    unfold buildChangedVindexesValues
    rw [bcvv_append upd pre 0 [] acc hacc (v :: post)]
    simp only [bcvvAux, hvvf]
  simp only [buildUpdatePlan, Bool.not_true, Bool.false_eq_true, if_false,
    Bool.not_false, if_true, hbc]

/-- Witness for C9 (amended): assigning the primary-vindex column a
two literals fails with the duplicate-set-values error naming a. -/
theorem c9_witness :
    buildUpdatePlan updDupLiterals "update t set a = 5, a = 6"
        (.ok (.route "ks" true false [some tableF])) true false
        (.ok ("hashidx", [])) =
      .error (.duplicateSetValues "a") :=
  c9_amended updDupLiterals "update t set a = 5, a = 6" "ks" "hashidx" []
    true tableF [] hashVindexF [lookupVindexF] [] "a" [] rfl rfl
    ⟨[], rfl⟩ (by decide) (by decide) (by decide)

/-- Claim C4: for every sharded UPDATE plan, the owned-vindex fetch
subquery is attached exactly when ChangedVindexValues is non-empty, and
its text is the select keyword, the comma-separated columns of every
owned vindex of the table in declaration order with no leading
separator, the from clause with the table name, the original WHERE,
ORDER BY and LIMIT renderings, and the for-update suffix. -/
theorem c4_owned_subquery (upd : UpdateStmt) (qtext ks vn : String)
    (vals : List PlanValue) (vsub : Bool) (t : VTable)
    (cvv : List (String × List PlanValue))
    (howned : t.owned = t.columnVindexes.filter (fun cv => cv.owned))
    (hcols : ∀ cv ∈ t.owned, cv.columns ≠ [])
    (hb : buildChangedVindexesValues upd t.columnVindexes = .ok cvv) :
    buildUpdatePlan upd qtext (.ok (.route ks true false [some t])) vsub
        false (.ok (vn, vals)) =
      .ok { opcode := .equal, keyspaceName := ks, sharded := true,
            query := qtext, changedVindexValues := cvv,
            ownedVindexQuery :=
              if cvv.isEmpty then ""
              else "select " ++ commaSeparated
                  (((t.columnVindexes.filter (fun cv => cv.owned)).map
                    (fun cv => cv.columns)).flatten)
                ++ " from " ++ t.name ++ upd.whereStr
                ++ renderOrderBy upd.orderBy ++ renderLimit upd.limit
                ++ " for update",
            table := some t, vindexName := some vn, values := vals } := by
  have hsub : generateUpdateSubquery upd t =
      "select " ++ commaSeparated
          (((t.columnVindexes.filter (fun cv => cv.owned)).map
            (fun cv => cv.columns)).flatten)
        ++ " from " ++ t.name ++ upd.whereStr
        ++ renderOrderBy upd.orderBy ++ renderLimit upd.limit
        ++ " for update" := by
    unfold generateUpdateSubquery
    rw [ownedColumnsText_flatten (t.owned.map (fun cv => cv.columns))
      (by
        intro l hl
        obtain ⟨cv, hcv, hcveq⟩ := List.mem_map.mp hl
        rw [← hcveq]
        exact hcols cv hcv), howned]
  simp only [buildUpdatePlan, Bool.not_true, Bool.false_eq_true, if_false,
    Bool.not_false, if_true, hb, hsub]

/-- Witness for C4: updating the owned-lookup column b to the literal 3
produces the plan with one changed vindex and the expected fetch
subquery text. -/
theorem c4_witness :
    buildUpdatePlan updSetLookupLiteral "update t set b = 3 where a = 1"
        (.ok (.route "ks" true false [some tableF])) true false
        (.ok ("hashidx", [])) =
      .ok { opcode := .equal, keyspaceName := "ks", sharded := true,
            query := "update t set b = 3 where a = 1",
            changedVindexValues := [("lkpidx", [.value (.intVal 3)])],
            ownedVindexQuery := "select b from t where a = 1 for update",
            table := some tableF, vindexName := some "hashidx",
            values := [] } := by
  have h := c4_owned_subquery updSetLookupLiteral
    "update t set b = 3 where a = 1" "ks" "hashidx" [] true tableF
    [("lkpidx", [.value (.intVal 3)])] rfl (by decide) rfl
  rw [h]
  rfl
